import Mathlib

/-!
Verification of getoutreach/lintroller: a shallow embedding of the
suppression-aware reporting layer (package reporter), the shared helpers
(package common), the why linter, and the documentation compliance
analyzer (package doculint), together with theorems settling the spec
claims.

Go strings are modelled as lists of characters (`Str`); the handful of
`strings` standard-library functions the code uses are re-implemented on
that representation with Go's documented semantics.
-/

namespace Lintroller

/-- Str models a Go string as its sequence of characters. -/
abbrev Str := List Char

/-- str converts a Lean string literal to the `Str` model. -/
def str (s : String) : Str := s.data

/-- goIsSpace mirrors Go's unicode.IsSpace on the ASCII range, which is the
set strings.TrimSpace trims: space, tab, newline, vertical tab, form feed,
carriage return. (The Go function also trims a few non-ASCII code points,
which never occur in the claims' inputs.) -/
def goIsSpace (c : Char) : Bool :=
  c == ' ' || c == '\t' || c == '\n' || c == '\x0b' || c == '\x0c' || c == '\r'

/-- trimSpaceGo mirrors strings.TrimSpace: drop whitespace from both ends. -/
def trimSpaceGo (s : Str) : Str :=
  ((s.dropWhile goIsSpace).reverse.dropWhile goIsSpace).reverse

/-- hasPrefixGo mirrors strings.HasPrefix. -/
def hasPrefixGo (s pre : Str) : Bool := pre.isPrefixOf s

/-- hasSuffixGo mirrors strings.HasSuffix. -/
def hasSuffixGo (s suf : Str) : Bool := suf.isSuffixOf s

/-- trimPrefixGo mirrors strings.TrimPrefix: remove the leading prefix when
present, otherwise return the string unchanged. -/
def trimPrefixGo (s pre : Str) : Str :=
  if pre.isPrefixOf s then s.drop pre.length else s

/-- trimSuffixGo mirrors strings.TrimSuffix. -/
def trimSuffixGo (s suf : Str) : Str :=
  if suf.isSuffixOf s then s.take (s.length - suf.length) else s

/-- splitChar mirrors strings.Split with a one-character separator (the two
separators the code splits on, "," and the path separator "/", are single
characters). Adjacent separators produce empty fields and splitting the
empty string yields one empty field, as in Go. -/
def splitChar (sep : Char) : Str → List Str
  | [] => [[]]
  | c :: rest =>
    let r := splitChar sep rest
    if c == sep then [] :: r
    else
      match r with
      | [] => [[c]]
      | h :: t => (c :: h) :: t

/-- takeUntilSub returns the text strictly before the first occurrence of
`sep`, or `none` when `sep` does not occur. It models the
`strings.Index` / slice-before-index pattern used by the reporter. -/
def takeUntilSub (sep : Str) : Str → Option Str
  | [] => none
  | c :: rest =>
    if sep.isPrefixOf (c :: rest) then some []
    else
      match takeUntilSub sep rest with
      | none => none
      | some pre => some (c :: pre)

/-- containsSub mirrors strings.Contains: whether `sep` occurs in `s`. -/
def containsSub (sep s : Str) : Bool := (takeUntilSub sep s).isSome

/-- toLowerGo mirrors strings.ToLower on the ASCII range (the only range
exercised by the code's fixed search phrases). -/
def toLowerGo (s : Str) : Str := s.map Char.toLower

/-- containsAnyGo mirrors strings.ContainsAny: whether any character of
`chars` occurs in `s`. -/
def containsAnyGo (s chars : Str) : Bool := s.any fun c => chars.any fun d => d == c

/-! ## Package reporter

Embedding of internal/reporter (noLint, NewPass, Pass.Reportf and the Warn
functional option). A comment is modelled by its raw text together with the
filename and line that the position resolver reports for it. -/

/-- RComment is one source comment with its resolved position: the raw text
(including the `//` marker for line comments), and the filename and line of
`Fset.PositionFor(comment.Pos(), false)`. -/
structure RComment where
  filename : Str
  line : Int
  text : Str
deriving DecidableEq

/-- processText performs the comment normalization done by reporter.NewPass:
`strings.TrimSpace(strings.TrimPrefix(comment.Text, "//"))`, then, when a
second `//` occurs (a trailing `// Why: ...` justification), the text is cut
before it and trimmed again. -/
def processText (t : Str) : Str :=
  let t1 := trimSpaceGo (trimPrefixGo t (str "//"))
  match takeUntilSub (str "//") t1 with
  | some pre => trimSpaceGo pre
  | none => t1

/-- directiveLinters? parses a comment's text as a nolint directive: when the
processed text starts with the literal `nolint:`, it returns the
comma-separated list that follows (after trimming), mirroring
`strings.Split(strings.TrimSpace(strings.TrimPrefix(text, directive)), ",")`;
otherwise it returns `none`. -/
def directiveLinters? (t : Str) : Option (List Str) :=
  let text := processText t
  if hasPrefixGo text (str "nolint:") then
    some (splitChar ',' (trimSpaceGo (trimPrefixGo text (str "nolint:"))))
  else none

/-- NoLint is reporter.noLint: a filename/line tandem that must not be
linted against for the current linter. -/
structure NoLint where
  filename : Str
  line : Int
deriving DecidableEq

/-- NoLint.matchesPos is reporter.noLint.Matches: the recorded entry matches
a reported position when the filenames agree and the position's line is the
recorded line or the line right after it. -/
def NoLint.matchesPos (n : NoLint) (filename : Str) (line : Int) : Bool :=
  n.filename == filename && (n.line == line || n.line + 1 == line)

/-- noLintsFor is the comment scan inside reporter.NewPass: for every comment
whose processed text is a `nolint:` directive naming `linter`, record a
NoLint at the comment's position. The comments are given in the file, group,
comment order that the triple loop in the source visits them. -/
def noLintsFor (linter : Str) (comments : List RComment) : List NoLint :=
  comments.filterMap fun c =>
    match directiveLinters? c.text with
    | some ls => if ls.any (fun x => x == linter) then some ⟨c.filename, c.line⟩ else none
    | none => none

/-- Pass is reporter.Pass: the recorded noLint entries, the owning linter's
name, and the warn flag set by the functional options. -/
structure Pass where
  noLints : List NoLint
  linter : Str
  warn : Bool

/-- PassOption is reporter.PassOption, a functional option over Pass. -/
def PassOption := Pass → Pass

/-- Warn is reporter.Warn: the option that makes every report a warning. -/
def Warn : PassOption := fun p => { p with warn := true }

/-- NewPass is reporter.NewPass: build a Pass for `linter`, apply the
functional options, then record the noLint directives found in the comments. -/
def NewPass (linter : Str) (comments : List RComment) (opts : List PassOption) : Pass :=
  let p : Pass := { noLints := [], linter := linter, warn := false }
  let p := opts.foldl (fun p o => o p) p
  { p with noLints := noLintsFor linter comments }

/-- Severity of an emitted violation record. -/
inductive Severity
  | error
  | warning
deriving DecidableEq

/-- Emission is one violation record as it leaves Pass.Reportf: the severity
and the formatted message. In the source, warnings are printed to stdout with
a `[WARNING]` tag while errors go to the underlying *analysis.Pass.Reportf;
both carry the owning linter's name appended in parentheses. -/
structure Emission where
  severity : Severity
  message : Str
deriving DecidableEq

/-- Pass.reportf is reporter.Pass.Reportf: when some recorded noLint matches
the reported position the violation is dropped (`none`); otherwise it is
emitted with the linter name appended, as a warning when the warn option was
set and as an error otherwise. -/
def Pass.reportf (p : Pass) (filename : Str) (line : Int) (msg : Str) : Option Emission :=
  if p.noLints.any (fun n => n.matchesPos filename line) then none
  else if p.warn then some ⟨Severity.warning, msg ++ str " (" ++ p.linter ++ str ")"⟩
  else some ⟨Severity.error, msg ++ str " (" ++ p.linter ++ str ")"⟩

/-! ## Package common

Shared helpers from internal/common/common.go. -/

/-- isGeneratedComments is common.IsGenerated lifted to the file's comment
texts: the file is generated when some comment, lowercased, contains the
substring "code generated". -/
def isGeneratedComments (comments : List Str) : Bool :=
  comments.any fun c => containsSub (str "code generated") (toLowerGo c)

/-- isTestPath is common.IsTestFile on the filename the position resolver
reports for the file: strip the ".go" suffix, then test for the "test_"
prefix or the "_test" suffix. -/
def isTestPath (path : Str) : Bool :=
  let fn := trimSuffixGo path (str ".go")
  hasPrefixGo fn (str "test_") || hasSuffixGo fn (str "_test")

/-- baseName extracts the file's base name as doculint does: split the full
path on the path separator, take the last component, and strip ".go". -/
def baseName (path : Str) : Str :=
  trimSuffixGo ((splitChar '/' path).getLastD []) (str ".go")

/-! ## Package doculint: data model

The syntax-tree fragments doculint consumes. Doc comments are modelled by
the string `CommentGroup.Text()` returns, absent groups by `none`. -/

/-- Tok is the declaration keyword of a GenDecl. -/
inductive Tok
  | constTok
  | typeTok
  | varTok
  | importTok
deriving DecidableEq

/-- SpecNode is one `ast.Spec` inside a GenDecl: a value specification (with
its doc comment, names, optional explicit type identifier, and line), a type
specification, or any other spec kind (e.g. an import spec). -/
inductive SpecNode
  | value (doc : Option Str) (names : List Str) (typ : Option Str) (line : Int)
  | tspec (doc : Option Str) (name : Str) (line : Int)
  | otherSpec
deriving DecidableEq

/-- GenDecl is an `ast.GenDecl`: keyword, whether it is parenthesized
(`Lparen.IsValid()`), its doc comment, its position's line, and its specs. -/
structure GenDecl where
  tok : Tok
  lparen : Bool
  doc : Option Str
  line : Int
  specs : List SpecNode
deriving DecidableEq

/-- FuncDecl is an `ast.FuncDecl`: name, doc comment, and the lines of its
start and end positions. -/
structure FuncDecl where
  name : Str
  doc : Option Str
  startLine : Int
  endLine : Int
deriving DecidableEq

/-- Decl is a top-level declaration of a file. -/
inductive Decl
  | gen (g : GenDecl)
  | func (f : FuncDecl)
deriving DecidableEq

/-- DFile is one parsed file as doculint sees it: the full filename the
position resolver reports, the file's leading doc comment, every comment's
raw text (for generated-file detection), and the ordered top-level
declarations. -/
structure DFile where
  path : Str
  doc : Option Str
  comments : List Str
  decls : List Decl
deriving DecidableEq

/-- Config carries the doculint flag values gathered at runtime. -/
structure Config where
  minFunLen : Int
  validatePackages : Bool
  validateFunctions : Bool
  validateVariables : Bool
  validateConstants : Bool
  validateTypes : Bool
deriving DecidableEq

/-- VKind identifies which doculint violation was reported, carrying the
names interpolated into the message. -/
inductive VKind
  | pkgNameDash (pkg : Str)
  | pkgNameLower (pkg : Str)
  | pkgNoComment (pkg : Str)
  | pkgCommentPrefix (pkg : Str)
  | pkgNoDocFile (pkg : Str)
  | funcNoComment (name : Str)
  | funcCommentPrefix (name : Str)
  | constBlockNoComment
  | constantsSeparated (names : List Str)
  | constantNoComment (name : Str)
  | constantCommentPrefix (name : Str)
  | typeBlockNoComment
  | typeNoComment (name : Str)
  | typeCommentPrefix (name : Str)
  | varBlockNoComment
  | variablesSeparated (names : List Str)
  | variableNoComment (name : Str)
  | varCommentPrefix (name : Str)
deriving DecidableEq

/-- Violation is one reported doculint violation: the line passed to Reportf
(0 for package-scope reports) and its kind. -/
structure Violation where
  line : Int
  kind : VKind
deriving DecidableEq

/-- countV counts the occurrences of a violation in a report list. -/
def countV (v : Violation) (l : List Violation) : Nat :=
  (l.filter fun w => decide (w = v)).length

/-! ## Package doculint: validators

Translated from internal/doculint/doculint.go. Go reports violations by the
side effect `Reportf`; pure validators instead return the list of reported
violations, and the member loops that can fault (index a `Names` slice that
may be empty) return `Option` per member, with the runner keeping the
violations emitted before the fault and an "analysis completed" flag. -/

/-- validatePackageName checks that a package identifier contains neither
`-` nor `_` and is entirely lowercase; both reports are at position 0. -/
def validatePackageName (pkg : Str) : List Violation :=
  (if containsAnyGo pkg (str "_-") then [⟨0, VKind.pkgNameDash pkg⟩] else []) ++
  (if pkg == toLowerGo pkg then [] else [⟨0, VKind.pkgNameLower pkg⟩])

/-- validateFuncDecl checks one function declaration: init functions are
ignored; a missing doc comment is one violation (and the function returns);
otherwise the trimmed doc text must start with the function's name. This is
the copy under src/, which requires only `strings.HasPrefix(text, name)` -
no trailing space after the name. -/
def validateFuncDecl (f : FuncDecl) : List Violation :=
  if f.name == str "init" then []
  else
    match f.doc with
    | none => [⟨f.startLine, VKind.funcNoComment f.name⟩]
    | some d =>
      if hasPrefixGo (trimSpaceGo d) f.name then []
      else [⟨f.startLine, VKind.funcCommentPrefix f.name⟩]

/-- constSpecChecks validates one spec of a constant declaration. Specs that
are not value specifications are skipped. More than one name is the
"should be separated" violation. Exactly one name inherits the block's doc
when the declaration is not parenthesized, then requires a doc starting with
the name. An EMPTY name list makes the source evaluate `vs.Names[0]` on an
empty slice - an index-out-of-range panic - modelled as `none`. -/
def constSpecChecks (lparen : Bool) (blockDoc : Option Str) :
    SpecNode → Option (List Violation)
  | SpecNode.value vdoc names _ line =>
    if names.length > 1 then some [⟨line, VKind.constantsSeparated names⟩]
    else
      match names with
      | [] => none
      | name :: _ =>
        let doc := if lparen then vdoc else blockDoc
        match doc with
        | none => some [⟨line, VKind.constantNoComment name⟩]
        | some d =>
          if hasPrefixGo (trimSpaceGo d) name then some []
          else some [⟨line, VKind.constantCommentPrefix name⟩]
  | _ => some []

/-- runSpecs folds a per-spec validator over a spec list, concatenating the
violations reported before any fault; the boolean is `true` when every
member was evaluated without faulting. -/
def runSpecs (f : SpecNode → Option (List Violation)) :
    List SpecNode → List Violation × Bool
  | [] => ([], true)
  | s :: rest =>
    match f s with
    | none => ([], false)
    | some vs =>
      let r := runSpecs f rest
      (vs ++ r.1, r.2)

/-- isEnumLike decides the enum-detection heuristic for a parenthesized
constant block.

Modelled from the spec: this heuristic is not present in the copies of
validateGenDeclConstants under src/ (they predate it); per spec section 4.2,
a constant block is enum-like when the immediately preceding top-level
declaration is a single, non-parenthesized type declaration (exactly one
type spec) of some type T, and every member of the block is a value
specification carrying an explicit type identifier equal to T. -/
def isEnumLike (prev : Option Decl) (g : GenDecl) : Bool :=
  match prev with
  | some (Decl.gen t) =>
    match t.tok, t.lparen, t.specs with
    | Tok.typeTok, false, [SpecNode.tspec _ tname _] =>
      g.specs.all fun s =>
        match s with
        | SpecNode.value _ _ (some tn) _ => tn == tname
        | _ => false
    | _, _, _ => false
  | _ => false

/-- validateGenDeclConstants validates a constant GenDecl: a parenthesized
block without a doc comment is the block violation, then every spec is
validated by constSpecChecks.

The block-violation condition additionally consults the enum exemption
(`enumLike`), which is modelled from the spec: the copies under src/ report
the block violation whenever the block has no doc comment. -/
def validateGenDeclConstants (enumLike : Bool) (g : GenDecl) :
    List Violation × Bool :=
  let blockViols :=
    if g.lparen && g.doc.isNone && !enumLike then [⟨g.line, VKind.constBlockNoComment⟩]
    else []
  let r := runSpecs (constSpecChecks g.lparen g.doc) g.specs
  (blockViols ++ r.1, r.2)

/-- typeSpecChecks validates one spec of a type declaration; specs that are
not type specifications are skipped. A type spec always carries a name, so
this member check cannot fault. -/
def typeSpecChecks (lparen : Bool) (blockDoc : Option Str) :
    SpecNode → List Violation
  | SpecNode.tspec tdoc name line =>
    let doc := if lparen then tdoc else blockDoc
    match doc with
    | none => [⟨line, VKind.typeNoComment name⟩]
    | some d =>
      if hasPrefixGo (trimSpaceGo d) name then []
      else [⟨line, VKind.typeCommentPrefix name⟩]
  | _ => []

/-- validateGenDeclTypes validates a type GenDecl: a parenthesized block
without a doc comment is the block violation, then each type spec must have
a doc (inherited from the declaration when not parenthesized) starting with
the type's name. -/
def validateGenDeclTypes (g : GenDecl) : List Violation :=
  (if g.lparen && g.doc.isNone then [⟨g.line, VKind.typeBlockNoComment⟩] else []) ++
  (g.specs.map (typeSpecChecks g.lparen g.doc)).flatten

/-- varSpecChecks validates one spec of a variable declaration; identical in
shape to constSpecChecks (including the `vs.Names[0]` panic on an empty name
list, modelled as `none`). -/
def varSpecChecks (lparen : Bool) (blockDoc : Option Str) :
    SpecNode → Option (List Violation)
  | SpecNode.value vdoc names _ line =>
    if names.length > 1 then some [⟨line, VKind.variablesSeparated names⟩]
    else
      match names with
      | [] => none
      | name :: _ =>
        let doc := if lparen then vdoc else blockDoc
        match doc with
        | none => some [⟨line, VKind.variableNoComment name⟩]
        | some d =>
          if hasPrefixGo (trimSpaceGo d) name then some []
          else some [⟨line, VKind.varCommentPrefix name⟩]
  | _ => some []

/-- validateGenDeclVariables validates a variable GenDecl: block-comment
requirement for parenthesized blocks, then per-spec validation. -/
def validateGenDeclVariables (g : GenDecl) : List Violation × Bool :=
  let blockViols :=
    if g.lparen && g.doc.isNone then [⟨g.line, VKind.varBlockNoComment⟩] else []
  let r := runSpecs (varSpecChecks g.lparen g.doc) g.specs
  (blockViols ++ r.1, r.2)

/-- validateGenDecl dispatches a GenDecl on its keyword, honoring the
per-kind enable flags; constants consult the enum exemption computed from
the immediately preceding top-level declaration. -/
def validateGenDecl (cfg : Config) (prev : Option Decl) (g : GenDecl) :
    List Violation × Bool :=
  match g.tok with
  | Tok.constTok =>
    if cfg.validateConstants then validateGenDeclConstants (isEnumLike prev g) g
    else ([], true)
  | Tok.typeTok =>
    if cfg.validateTypes then (validateGenDeclTypes g, true) else ([], true)
  | Tok.varTok =>
    if cfg.validateVariables then validateGenDeclVariables g else ([], true)
  | Tok.importTok => ([], true)

/-- checkDecl validates one top-level declaration. Functions are gated on
the validateFunctions flag, `main` in the main package is ignored, and the
doc rules apply only when the body span `end - start + 1` meets the
configured minimum function length. -/
def checkDecl (cfg : Config) (pkg : Str) (prev : Option Decl) :
    Decl → List Violation × Bool
  | Decl.func f =>
    if !cfg.validateFunctions then ([], true)
    else if pkg == str "main" && f.name == str "main" then ([], true)
    else if cfg.minFunLen ≤ f.endLine - f.startLine + 1 then (validateFuncDecl f, true)
    else ([], true)
  | Decl.gen g => validateGenDecl cfg prev g

/-- walkDecls walks a file's top-level declarations in order, handing each
declaration the one before it (for the enum heuristic) and stopping at the
first fault.

Modelled from the spec: the traversal validates file-scope declarations
only; declaration blocks nested inside function bodies are excluded from
block-level validation (spec section 4.2, Traversal). -/
def walkDecls (cfg : Config) (pkg : Str) :
    Option Decl → List Decl → List Violation × Bool
  | _, [] => ([], true)
  | prev, d :: rest =>
    let r := checkDecl cfg pkg prev d
    if r.2 then
      let r2 := walkDecls cfg pkg (some d) rest
      (r.1 ++ r2.1, r2.2)
    else (r.1, false)

/-- filePackageCheck performs the per-file slice of the package-comment
rule. The main package, or validatePackages switched off, count as
satisfied. Otherwise a file qualifies as the package-doc file when its base
name equals the package name - or, modelled from the spec (using
common.DocFilenameWithoutPath, whose use is not in the doculint copies under
src/), the conventional base name "doc". A qualifying file sets the
package-has-doc-file flag (the second component) and must carry a leading
comment starting with `Package <pkg>`. -/
def filePackageCheck (cfg : Config) (pkg : Str) (f : DFile) :
    List Violation × Bool :=
  if pkg == str "main" || !cfg.validatePackages then ([], true)
  else
    let fn := baseName f.path
    if fn == pkg || fn == str "doc" then
      match f.doc with
      | none => ([⟨0, VKind.pkgNoComment pkg⟩], true)
      | some d =>
        if hasPrefixGo (trimSpaceGo d) (str "Package " ++ pkg) then ([], true)
        else ([⟨0, VKind.pkgCommentPrefix pkg⟩], true)
    else ([], false)

/-- checkFile analyzes one file: its package-comment slice and its
declaration walk. The result is (violations, sets-package-doc-flag,
completed-without-fault).

Modelled from the spec: generated files and test files are skipped entirely
(spec section 4.2: the analyzer "applies only to files that are neither
generated nor test files"); the skip is not in the doculint copies under
src/, but follows the same pattern the why linter uses with
common.IsGenerated and common.IsTestFile. -/
def checkFile (cfg : Config) (pkg : Str) (f : DFile) :
    List Violation × Bool × Bool :=
  if isGeneratedComments f.comments || isTestPath f.path then ([], false, true)
  else
    let p := filePackageCheck cfg pkg f
    let w := walkDecls cfg pkg none f.decls
    (p.1 ++ w.1, p.2, w.2)

/-- runFiles folds checkFile over the files of the package, concatenating
violations, OR-ing the package-doc-file flag, and stopping at a fault. -/
def runFiles (cfg : Config) (pkg : Str) : List DFile → List Violation × Bool × Bool
  | [] => ([], false, true)
  | f :: rest =>
    let r := checkFile cfg pkg f
    if r.2.2 then
      let rr := runFiles cfg pkg rest
      (r.1 ++ rr.1, r.2.1 || rr.2.1, rr.2.2)
    else (r.1, r.2.1, false)

/-- doculint is the whole analyzer run over one package: validate the
package name, scan every file, and - when the scan completed - emit exactly
one package-level violation if no file carried the package doc comment. -/
def doculint (cfg : Config) (pkg : Str) (files : List DFile) :
    List Violation × Bool :=
  let pv := validatePackageName pkg
  let r := runFiles cfg pkg files
  if r.2.2 then
    (pv ++ r.1 ++ (if r.2.1 then [] else [⟨0, VKind.pkgNoDocFile pkg⟩]), true)
  else (pv ++ r.1, false)

/-! ## Package why

Embedding of internal/why/why.go: the per-file scan that flags naked nolint
directives and nolint comments lacking a `// Why:` justification. The two
regular expressions are unrolled into deterministic matchers; their
alternations are resolved exactly (each optional piece either must or cannot
be taken at its position, so no backtracking arises). -/

/-- regexSpace is Go regexp's `\s`: tab, newline, form feed, carriage
return, and space. -/
def regexSpace (c : Char) : Bool :=
  c == '\t' || c == '\n' || c == '\x0c' || c == '\r' || c == ' '

/-- wordClassChar is the character class `[\w\-,]` of reNoLintWhy. -/
def wordClassChar (c : Char) : Bool :=
  c.isAlphanum || c == '_' || c == '-' || c == ','

/-- matchWhyTail matches the fragment `//\s?Why:.+$` (whyPattern anchored at
the end): the whole remainder must be `//`, an optional single space
character, `Why:`, then at least one character with no newline (Go's `.`
does not match a newline and `$` is the end of the text). -/
def matchWhyTail (l : Str) : Bool :=
  if hasPrefixGo l (str "//") then
    let r := l.drop 2
    let whyOk : Str → Bool := fun s =>
      hasPrefixGo s (str "Why:") &&
      (let t := s.drop 4
       !t.isEmpty && t.all fun c => !(c == '\n'))
    whyOk r ||
      (match r with
       | c :: rest => regexSpace c && whyOk rest
       | [] => false)
  else false

/-- matchNaked is reNoLintNaked, `^nolint\s*(//\s?Why:.+)?$`: the text is
`nolint`, optional whitespace, and then either nothing or a Why comment. -/
def matchNaked (text : Str) : Bool :=
  hasPrefixGo text (str "nolint") &&
  (let r := (text.drop 6).dropWhile regexSpace
   r.isEmpty || matchWhyTail r)

/-- matchWhy is reNoLintWhy, `^nolint(?::\s?[\w\-,]+)?\s+//\s?Why:.+$`: the
text is `nolint`, an optional `:` followed by an optional single space and a
nonempty run of `[\w\-,]` characters, then at least one whitespace character
and a Why comment reaching the end of the text. -/
def matchWhy (text : Str) : Bool :=
  hasPrefixGo text (str "nolint") &&
  (let r0 := text.drop 6
   let classTake : Str → Option Str := fun s =>
     if (s.takeWhile wordClassChar).isEmpty then none
     else some (s.dropWhile wordClassChar)
   let afterGroup : Option Str :=
     match r0 with
     | ':' :: r1 =>
       (match classTake r1 with
        | some rest => some rest
        | none =>
          match r1 with
          | c :: r2 => if regexSpace c then classTake r2 else none
          | [] => none)
     | _ => some r0
   match afterGroup with
   | none => false
   | some r =>
     (match r with
      | c :: _ => regexSpace c
      | [] => false) &&
     matchWhyTail (r.dropWhile regexSpace))

/-- WhyViol are the two violations the why linter reports. -/
inductive WhyViol
  | naked
  | noWhy
deriving DecidableEq

/-- whyCheckComment is the loop body of the why linter: trim the comment
marker; a comment starting with `nolint` is flagged as naked when
reNoLintNaked matches, and flagged as missing its justification when
reNoLintWhy does not match. -/
def whyCheckComment (raw : Str) : List WhyViol :=
  let text := trimSpaceGo (trimPrefixGo raw (str "//"))
  if hasPrefixGo text (str "nolint") then
    (if matchNaked text then [WhyViol.naked] else []) ++
    (if matchWhy text then [] else [WhyViol.noWhy])
  else []

/-- whyFile is the per-file scan of the why linter: generated files and test
files are skipped entirely; otherwise every comment is checked. -/
def whyFile (f : DFile) : List WhyViol :=
  if isGeneratedComments f.comments || isTestPath f.path then []
  else (f.comments.map whyCheckComment).flatten

/-! ## Helper lemmas -/

/-- reportf_none_iff: a report is dropped exactly when some recorded noLint
entry matches the reported position. -/
theorem reportf_none_iff (p : Pass) (fn : Str) (ln : Int) (msg : Str) :
    p.reportf fn ln msg = none ↔ (p.noLints.any fun n => n.matchesPos fn ln) = true := by
  by_cases h : (p.noLints.any fun n => n.matchesPos fn ln) = true
  · simp [Pass.reportf, h]
  · by_cases hw : p.warn = true <;> simp [Pass.reportf, h, hw]

/-- matchesPos_iff characterizes noLint.Matches propositionally. -/
theorem matchesPos_iff (fn fn2 : Str) (ln ln2 : Int) :
    NoLint.matchesPos ⟨fn, ln⟩ fn2 ln2 = true ↔ (fn2 = fn ∧ (ln2 = ln ∨ ln2 = ln + 1)) := by
  simp only [NoLint.matchesPos, Bool.and_eq_true, Bool.or_eq_true, beq_iff_eq]
  constructor
  · rintro ⟨h1, h2⟩
    exact ⟨h1.symm, h2.imp Eq.symm Eq.symm⟩
  · rintro ⟨h1, h2⟩
    exact ⟨h1.symm, h2.imp Eq.symm Eq.symm⟩

/-! ## Claim theorems: suppression engine -/

/-- C2: a suppression directive naming rule R, recorded at line L of file F,
suppresses exactly the violations for R reported at line L or L+1 of file F
(never L-1, never another file); and a pass for a rule the directive does
not name records nothing from it and forwards every violation. -/
theorem suppression_window (R F : Str) (L : Int) (c : RComment) (ls : List Str)
    (F2 : Str) (L2 : Int) (msg : Str) (R2 : Str)
    (hF : c.filename = F) (hL : c.line = L)
    (hdir : directiveLinters? c.text = some ls) (hR : R ∈ ls) :
    noLintsFor R [c] = [⟨F, L⟩]
    ∧ ((NewPass R [c] []).reportf F2 L2 msg = none ↔ (F2 = F ∧ (L2 = L ∨ L2 = L + 1)))
    ∧ (R2 ∉ ls → noLintsFor R2 [c] = [])
    ∧ (R2 ∉ ls → (NewPass R2 [c] []).reportf F2 L2 msg ≠ none) := by
  have h1 : noLintsFor R [c] = [⟨F, L⟩] := by
    simp [noLintsFor, hdir, hF, hL, hR]
  have hpass : NewPass R [c] [] = ⟨[⟨F, L⟩], R, false⟩ := by
    simp [NewPass, h1]
  have hrec0 : ∀ R0 : Str, R0 ∉ ls → noLintsFor R0 [c] = [] := by
    intro R0 hR0
    simp [noLintsFor, hdir, hR0]
  refine ⟨h1, ?_, hrec0 R2, ?_⟩
  · rw [hpass, reportf_none_iff]
    simpa using matchesPos_iff F F2 L L2
  · intro hR2
    have hpass2 : NewPass R2 [c] [] = ⟨[], R2, false⟩ := by
      simp [NewPass, hrec0 R2 hR2]
    rw [hpass2]
    simp [Pass.reportf]

/-- cWitness is a concrete directive comment used by the claim witnesses:
a nolint directive naming doculint at line 5 of a.go. -/
def cWitness : RComment := ⟨str "a.go", 5, str "// nolint:doculint // Why: t"⟩

/-- Witness for C2 at a concrete directive: the doculint pass drops a report
on the next line, forwards one two lines below, and the why pass records
nothing from the directive. -/
theorem suppression_window_witness :
    noLintsFor (str "doculint") [cWitness] = [⟨str "a.go", 5⟩]
    ∧ (NewPass (str "doculint") [cWitness]
        []).reportf (str "a.go") 6 (str "m") = none
    ∧ (NewPass (str "doculint") [cWitness]
        []).reportf (str "a.go") 7 (str "m") ≠ none
    ∧ noLintsFor (str "why") [cWitness] = [] := by
  have h6 := suppression_window (str "doculint") (str "a.go") 5 cWitness
    [str "doculint"] (str "a.go") 6 (str "m") (str "why")
    rfl rfl (by decide) (by decide)
  have h7 := suppression_window (str "doculint") (str "a.go") 5 cWitness
    [str "doculint"] (str "a.go") 7 (str "m") (str "why")
    rfl rfl (by decide) (by decide)
  refine ⟨h6.1, h6.2.1.mpr ⟨rfl, Or.inr (by decide)⟩, ?_, h6.2.2.1 (by decide)⟩
  intro hnone
  rcases h7.2.1.mp hnone with ⟨-, h | h⟩ <;> revert h <;> decide

/-- C7: a directive whose rule-name list is absent (no `nolint:` prefix
parses) or empty (the list parses to the single empty name) records no
suppression for any actual (nonempty-named) rule, so reports are still
forwarded - the directive fails open. -/
theorem naked_directive_fails_open (c : RComment) (R F : Str) (L : Int) (msg : Str)
    (hR : R ≠ [])
    (hdir : directiveLinters? c.text = none
      ∨ directiveLinters? c.text = some [([] : Str)]) :
    noLintsFor R [c] = [] ∧ (NewPass R [c] []).reportf F L msg ≠ none := by
  have h1 : noLintsFor R [c] = [] := by
    rcases hdir with h | h
    · simp [noLintsFor, h]
    · simp [noLintsFor, h, hR]
  have hpass : NewPass R [c] [] = ⟨[], R, false⟩ := by
    simp [NewPass, h1]
  refine ⟨h1, ?_⟩
  rw [hpass]
  simp [Pass.reportf]

/-- Witness for C7 at the two concrete naked forms: `//nolint` (absent list)
and `//nolint: // Why: x` (empty list). -/
theorem naked_directive_fails_open_witness :
    noLintsFor (str "why") [⟨str "a.go", 3, str "//nolint"⟩] = []
    ∧ (NewPass (str "why") [⟨str "a.go", 3, str "//nolint"⟩]
        []).reportf (str "a.go") 3 (str "m") ≠ none
    ∧ noLintsFor (str "why") [⟨str "a.go", 4, str "//nolint: // Why: x"⟩] = [] := by
  have ha := naked_directive_fails_open ⟨str "a.go", 3, str "//nolint"⟩
    (str "why") (str "a.go") 3 (str "m") (by decide) (Or.inl (by decide))
  have hb := naked_directive_fails_open ⟨str "a.go", 4, str "//nolint: // Why: x"⟩
    (str "why") (str "a.go") 3 (str "m") (by decide) (Or.inr (by decide))
  exact ⟨ha.1, ha.2, hb.1⟩

/-- C8: a report not dropped by a suppression is forwarded with the owning
rule's name appended to the message, at warning severity when the engine was
built with the Warn option and at the default error severity otherwise. -/
theorem reportf_severity (linter : Str) (comments : List RComment) (warnOpt : Bool)
    (F : Str) (L : Int) (msg : Str)
    (h : ∀ n ∈ noLintsFor linter comments, n.matchesPos F L = false) :
    (NewPass linter comments (if warnOpt then [Warn] else [])).reportf F L msg
      = some ⟨if warnOpt then Severity.warning else Severity.error,
              msg ++ str " (" ++ linter ++ str ")"⟩ := by
  have hpass : NewPass linter comments (if warnOpt then [Warn] else [])
      = ⟨noLintsFor linter comments, linter, warnOpt⟩ := by
    cases warnOpt <;> simp [NewPass, Warn]
  have hany : ((noLintsFor linter comments).any fun n => n.matchesPos F L) = false := by
    rw [List.any_eq_false]
    intro n hn
    simp [h n hn]
  rw [hpass]
  cases warnOpt <;> simp [Pass.reportf, hany]

/-- Witness for C8: with no recorded suppressions, the todo pass forwards a
message as an error by default and as a warning under the Warn option. -/
theorem reportf_severity_witness :
    (NewPass (str "todo") [] (if false then [Warn] else [])).reportf
        (str "a.go") 9 (str "m")
      = some ⟨Severity.error, str "m" ++ str " (" ++ str "todo" ++ str ")"⟩
    ∧ (NewPass (str "todo") [] (if true then [Warn] else [])).reportf
        (str "a.go") 9 (str "m")
      = some ⟨Severity.warning, str "m" ++ str " (" ++ str "todo" ++ str ")"⟩ := by
  refine ⟨?_, ?_⟩
  · exact reportf_severity (str "todo") [] false (str "a.go") 9 (str "m")
      (by simp [noLintsFor])
  · exact reportf_severity (str "todo") [] true (str "a.go") 9 (str "m")
      (by simp [noLintsFor])

/-! ## Claim theorems: documentation compliance analyzer -/

/-- runSpecs_all: a per-violation property guaranteed by the per-spec
validator holds of everything the spec runner emits, whether or not the
runner faults part-way. -/
theorem runSpecs_all (p : Violation → Prop) (f : SpecNode → Option (List Violation))
    (hf : ∀ s vs, f s = some vs → ∀ v ∈ vs, p v) :
    ∀ l, ∀ v ∈ (runSpecs f l).1, p v := by
  intro l
  induction l with
  | nil => simp [runSpecs]
  | cons s rest ih =>
    intro v hv
    cases hfs : f s with
    | none => simp [runSpecs, hfs] at hv
    | some vs =>
      simp only [runSpecs, hfs, List.mem_append] at hv
      rcases hv with h | h
      · exact hf s vs hfs v h
      · exact ih v h

/-- constSpecChecks_not_block: the per-member constant validation never
emits the block-level violation; only member-level kinds appear. -/
theorem constSpecChecks_not_block (lp : Bool) (bd : Option Str) :
    ∀ s vs, constSpecChecks lp bd s = some vs →
      ∀ v ∈ vs, v.kind ≠ VKind.constBlockNoComment := by
  intro s vs hvs
  cases s with
  | value d ns ty l =>
    simp only [constSpecChecks] at hvs
    by_cases hlen : ns.length > 1
    · rw [if_pos hlen] at hvs
      have h := Option.some.inj hvs
      subst h
      simp
    · rw [if_neg hlen] at hvs
      cases ns with
      | nil => simp at hvs
      | cons name rest =>
        cases hd : (if lp then d else bd) with
        | none =>
          rw [hd] at hvs
          have h := Option.some.inj hvs
          subst h
          simp
        | some dd =>
          rw [hd] at hvs
          dsimp only at hvs
          by_cases hp : hasPrefixGo (trimSpaceGo dd) name = true
          · rw [if_pos hp] at hvs
            have h := Option.some.inj hvs
            subst h
            simp
          · rw [if_neg hp] at hvs
            have h := Option.some.inj hvs
            subst h
            simp
  | tspec d n l =>
    have h := Option.some.inj hvs
    subst h
    simp
  | otherSpec =>
    have h := Option.some.inj hvs
    subst h
    simp

/-- C1: a parenthesized constant block whose immediately preceding top-level
declaration is a single non-parenthesized type declaration of T and whose
every member is a value specification explicitly typed T is enum-like, and
the analyzer emits no block-level "constant block has no comment" violation
for it, whatever the block's or its members' doc comments are. (The walk
hands checkDecl exactly the preceding top-level declaration, so being a
direct top-level declaration is condition of the call.) -/
theorem enum_block_exempt (cfg : Config) (pkg : Str) (prev : Option Decl)
    (g t : GenDecl) (tdoc : Option Str) (T : Str) (tline : Int)
    (htok : g.tok = Tok.constTok) (_hlp : g.lparen = true)
    (hprev : prev = some (Decl.gen t))
    (httok : t.tok = Tok.typeTok) (htlp : t.lparen = false)
    (htspec : t.specs = [SpecNode.tspec tdoc T tline])
    (hmem : ∀ s ∈ g.specs, ∃ d ns l, s = SpecNode.value d ns (some T) l) :
    ((checkDecl cfg pkg prev (Decl.gen g)).1.all
      fun v => decide (v.kind ≠ VKind.constBlockNoComment)) = true := by
  have henum : isEnumLike prev g = true := by
    rw [hprev]
    simp only [isEnumLike, httok, htlp, htspec]
    rw [List.all_eq_true]
    intro s hs
    rcases hmem s hs with ⟨d, ns, l, rfl⟩
    simp
  have hstep : checkDecl cfg pkg prev (Decl.gen g)
      = (if cfg.validateConstants then validateGenDeclConstants (isEnumLike prev g) g
         else ([], true)) := by
    simp [checkDecl, validateGenDecl, htok]
  rw [List.all_eq_true]
  intro v hv
  rw [hstep] at hv
  by_cases hvc : cfg.validateConstants = true
  · rw [if_pos hvc] at hv
    simp only [validateGenDeclConstants, henum, Bool.not_true, Bool.and_false,
      Bool.false_eq_true, if_false, List.nil_append] at hv
    simpa using runSpecs_all (fun v => v.kind ≠ VKind.constBlockNoComment) _
      (constSpecChecks_not_block g.lparen g.doc) g.specs v hv
  · rw [if_neg hvc] at hv
    simp at hv

/-- Witness for C1: `type Color` followed by an undocumented parenthesized
constant block whose two members are explicitly typed Color; only the
member-level violations appear, never the block-level one. -/
theorem enum_block_exempt_witness :
    (((checkDecl ⟨10, true, true, true, true, true⟩ (str "p")
        (some (Decl.gen ⟨Tok.typeTok, false, some (str "Color is a color."), 3,
          [SpecNode.tspec (some (str "Color is a color.")) (str "Color") 3]⟩))
        (Decl.gen ⟨Tok.constTok, true, none, 5,
          [SpecNode.value none [str "Red"] (some (str "Color")) 6,
           SpecNode.value none [str "Blue"] (some (str "Color")) 7]⟩)).1.all
      fun v => decide (v.kind ≠ VKind.constBlockNoComment)) = true) := by
  refine enum_block_exempt ⟨10, true, true, true, true, true⟩ (str "p") _
    _ ⟨Tok.typeTok, false, some (str "Color is a color."), 3,
      [SpecNode.tspec (some (str "Color is a color.")) (str "Color") 3]⟩
    (some (str "Color is a color.")) (str "Color") 3
    rfl rfl rfl rfl rfl rfl ?_
  intro s hs
  simp only [List.mem_cons, List.not_mem_nil, or_false] at hs
  rcases hs with rfl | rfl
  · exact ⟨none, [str "Red"], 6, rfl⟩
  · exact ⟨none, [str "Blue"], 7, rfl⟩

/-- C4: a function whose body span is strictly below the configured minimum
function length gets no doc-comment violation at all, whatever its doc
comment is. -/
theorem short_function_no_violation (cfg : Config) (pkg : Str) (prev : Option Decl)
    (f : FuncDecl) (h : f.endLine - f.startLine + 1 < cfg.minFunLen) :
    (checkDecl cfg pkg prev (Decl.func f)).1 = [] := by
  have hnotle : ¬ cfg.minFunLen ≤ f.endLine - f.startLine + 1 := Int.not_le.mpr h
  simp only [checkDecl]
  split
  · rfl
  · split
    · rfl
    · simp [hnotle]

/-- Witness for C4: an undocumented five-line function under the default
minimum of ten is not reported. -/
theorem short_function_no_violation_witness :
    (checkDecl ⟨10, true, true, true, true, true⟩ (str "p") none
      (Decl.func ⟨str "foo", none, 1, 5⟩)).1 = [] :=
  short_function_no_violation ⟨10, true, true, true, true, true⟩ (str "p") none
    ⟨str "foo", none, 1, 5⟩ (by decide)

/-- C6: a generated or test file is skipped entirely by the documentation
compliance analyzer - no violations, no package-doc-file flag contribution,
and no fault. -/
theorem generated_or_test_file_skipped (cfg : Config) (pkg : Str) (f : DFile)
    (h : (isGeneratedComments f.comments || isTestPath f.path) = true) :
    checkFile cfg pkg f = ([], false, true) := by
  simp [checkFile, h]

/-- Witness for C6: a file whose only comment mentions "Code generated", and
carrying an undocumented function and constant block, produces nothing. -/
theorem generated_or_test_file_skipped_witness :
    checkFile ⟨10, true, true, true, true, true⟩ (str "p")
      ⟨str "/x/gen.go", none, [str "// Code generated by tool. DO NOT EDIT."],
        [Decl.func ⟨str "foo", none, 1, 30⟩,
         Decl.gen ⟨Tok.constTok, true, none, 32, [SpecNode.value none [str "A"] none 33]⟩]⟩
      = ([], false, true) :=
  generated_or_test_file_skipped ⟨10, true, true, true, true, true⟩ (str "p")
    ⟨str "/x/gen.go", none, [str "// Code generated by tool. DO NOT EDIT."],
      [Decl.func ⟨str "foo", none, 1, 30⟩,
       Decl.gen ⟨Tok.constTok, true, none, 32, [SpecNode.value none [str "A"] none 33]⟩]⟩
    (by decide)

/-- C3 divergence record: the function doc rule under src requires only that
the trimmed doc start with the function's name - no trailing space after it.
For `func foo` (span 20, above the minimum of 10) documented as
"fooBar: Does a foobar thing." the analyzer emits nothing, although the doc
does not start with "foo " - the behavior the claim (and the repository's
own doculint_test.go) requires to be one violation. -/
theorem func_doc_prefix_no_space_eval :
    (checkDecl ⟨10, true, true, true, true, true⟩ (str "p") none
      (Decl.func ⟨str "foo", some (str "fooBar: Does a foobar thing."), 1, 20⟩)).1 = []
    ∧ hasPrefixGo (trimSpaceGo (str "fooBar: Does a foobar thing."))
        (str "foo" ++ str " ") = false
    ∧ ((10 : Int) ≤ 20 - 1 + 1) := by
  refine ⟨by decide, by decide, by decide⟩

/-- isPkgKind selects the package-scope violation kinds: everything the
declaration walk can emit is a non-package kind. -/
def isPkgKind : VKind → Bool
  | VKind.pkgNameDash _ => true
  | VKind.pkgNameLower _ => true
  | VKind.pkgNoComment _ => true
  | VKind.pkgCommentPrefix _ => true
  | VKind.pkgNoDocFile _ => true
  | _ => false

/-- constSpecChecks_no_pkg: per-member constant validation emits no
package-scope kind. -/
theorem constSpecChecks_no_pkg (lp : Bool) (bd : Option Str) :
    ∀ s vs, constSpecChecks lp bd s = some vs →
      ∀ v ∈ vs, isPkgKind v.kind = false := by
  intro s vs hvs
  cases s with
  | value d ns ty l =>
    simp only [constSpecChecks] at hvs
    by_cases hlen : ns.length > 1
    · rw [if_pos hlen] at hvs
      have h := Option.some.inj hvs
      subst h
      simp [isPkgKind]
    · rw [if_neg hlen] at hvs
      cases ns with
      | nil => simp at hvs
      | cons name rest =>
        cases hd : (if lp then d else bd) with
        | none =>
          rw [hd] at hvs
          have h := Option.some.inj hvs
          subst h
          simp [isPkgKind]
        | some dd =>
          rw [hd] at hvs
          dsimp only at hvs
          by_cases hp : hasPrefixGo (trimSpaceGo dd) name = true
          · rw [if_pos hp] at hvs
            have h := Option.some.inj hvs
            subst h
            simp
          · rw [if_neg hp] at hvs
            have h := Option.some.inj hvs
            subst h
            simp [isPkgKind]
  | tspec d n l =>
    have h := Option.some.inj hvs
    subst h
    simp
  | otherSpec =>
    have h := Option.some.inj hvs
    subst h
    simp

/-- varSpecChecks_no_pkg: per-member variable validation emits no
package-scope kind. -/
theorem varSpecChecks_no_pkg (lp : Bool) (bd : Option Str) :
    ∀ s vs, varSpecChecks lp bd s = some vs →
      ∀ v ∈ vs, isPkgKind v.kind = false := by
  intro s vs hvs
  cases s with
  | value d ns ty l =>
    simp only [varSpecChecks] at hvs
    by_cases hlen : ns.length > 1
    · rw [if_pos hlen] at hvs
      have h := Option.some.inj hvs
      subst h
      simp [isPkgKind]
    · rw [if_neg hlen] at hvs
      cases ns with
      | nil => simp at hvs
      | cons name rest =>
        cases hd : (if lp then d else bd) with
        | none =>
          rw [hd] at hvs
          have h := Option.some.inj hvs
          subst h
          simp [isPkgKind]
        | some dd =>
          rw [hd] at hvs
          dsimp only at hvs
          by_cases hp : hasPrefixGo (trimSpaceGo dd) name = true
          · rw [if_pos hp] at hvs
            have h := Option.some.inj hvs
            subst h
            simp
          · rw [if_neg hp] at hvs
            have h := Option.some.inj hvs
            subst h
            simp [isPkgKind]
  | tspec d n l =>
    have h := Option.some.inj hvs
    subst h
    simp
  | otherSpec =>
    have h := Option.some.inj hvs
    subst h
    simp

/-- typeSpecChecks_no_pkg: per-member type validation emits no package-scope
kind. -/
theorem typeSpecChecks_no_pkg (lp : Bool) (bd : Option Str) :
    ∀ s, ∀ v ∈ typeSpecChecks lp bd s, isPkgKind v.kind = false := by
  intro s v hv
  cases s with
  | value d ns ty l => simp [typeSpecChecks] at hv
  | tspec d n l =>
    simp only [typeSpecChecks] at hv
    cases hd : (if lp then d else bd) with
    | none =>
      rw [hd] at hv
      simp at hv
      subst hv
      simp [isPkgKind]
    | some dd =>
      rw [hd] at hv
      dsimp only at hv
      by_cases hp : hasPrefixGo (trimSpaceGo dd) n = true
      · rw [if_pos hp] at hv
        simp at hv
      · rw [if_neg hp] at hv
        simp at hv
        subst hv
        simp [isPkgKind]
  | otherSpec => simp [typeSpecChecks] at hv

/-- validateFuncDecl_no_pkg: function validation emits no package-scope
kind. -/
theorem validateFuncDecl_no_pkg (f : FuncDecl) :
    ∀ v ∈ validateFuncDecl f, isPkgKind v.kind = false := by
  intro v hv
  simp only [validateFuncDecl] at hv
  by_cases hi : (f.name == str "init") = true
  · rw [if_pos hi] at hv
    simp at hv
  · rw [if_neg hi] at hv
    cases hd : f.doc with
    | none =>
      rw [hd] at hv
      simp at hv
      subst hv
      simp [isPkgKind]
    | some d =>
      rw [hd] at hv
      dsimp only at hv
      by_cases hp : hasPrefixGo (trimSpaceGo d) f.name = true
      · rw [if_pos hp] at hv
        simp at hv
      · rw [if_neg hp] at hv
        simp at hv
        subst hv
        simp [isPkgKind]

/-- checkDecl_no_pkg: the declaration walk's per-declaration step emits no
package-scope kind. -/
theorem checkDecl_no_pkg (cfg : Config) (pkg : Str) (prev : Option Decl) (d : Decl) :
    ∀ v ∈ (checkDecl cfg pkg prev d).1, isPkgKind v.kind = false := by
  intro v hv
  cases d with
  | func f =>
    simp only [checkDecl] at hv
    split at hv
    · simp at hv
    · split at hv
      · simp at hv
      · split at hv
        · exact validateFuncDecl_no_pkg f v hv
        · simp at hv
  | gen g =>
    simp only [checkDecl, validateGenDecl] at hv
    cases htok : g.tok <;> rw [htok] at hv <;> dsimp only at hv
    · by_cases hc : cfg.validateConstants = true
      · rw [if_pos hc] at hv
        simp only [validateGenDeclConstants, List.mem_append] at hv
        rcases hv with h | h
        · by_cases hb : (g.lparen && g.doc.isNone && !isEnumLike prev g) = true
          · rw [if_pos hb] at h
            simp at h
            subst h
            simp [isPkgKind]
          · rw [if_neg hb] at h
            simp at h
        · exact runSpecs_all (fun v => isPkgKind v.kind = false) _
            (constSpecChecks_no_pkg g.lparen g.doc) g.specs v h
      · rw [if_neg hc] at hv
        simp at hv
    · by_cases hc : cfg.validateTypes = true
      · rw [if_pos hc] at hv
        simp only [validateGenDeclTypes, List.mem_append] at hv
        rcases hv with h | h
        · by_cases hb : (g.lparen && g.doc.isNone) = true
          · rw [if_pos hb] at h
            simp at h
            subst h
            simp [isPkgKind]
          · rw [if_neg hb] at h
            simp at h
        · simp only [List.mem_flatten] at h
          rcases h with ⟨vs, hvs, hvmem⟩
          simp only [List.mem_map] at hvs
          rcases hvs with ⟨s, -, rfl⟩
          exact typeSpecChecks_no_pkg g.lparen g.doc s v hvmem
      · rw [if_neg hc] at hv
        simp at hv
    · by_cases hc : cfg.validateVariables = true
      · rw [if_pos hc] at hv
        simp only [validateGenDeclVariables, List.mem_append] at hv
        rcases hv with h | h
        · by_cases hb : (g.lparen && g.doc.isNone) = true
          · rw [if_pos hb] at h
            simp at h
            subst h
            simp [isPkgKind]
          · rw [if_neg hb] at h
            simp at h
        · exact runSpecs_all (fun v => isPkgKind v.kind = false) _
            (varSpecChecks_no_pkg g.lparen g.doc) g.specs v h
      · rw [if_neg hc] at hv
        simp at hv
    · simp at hv

/-- walkDecls_no_pkg: the whole declaration walk emits no package-scope
kind. -/
theorem walkDecls_no_pkg (cfg : Config) (pkg : Str) :
    ∀ decls prev, ∀ v ∈ (walkDecls cfg pkg prev decls).1, isPkgKind v.kind = false := by
  intro decls
  induction decls with
  | nil => intro prev v hv; simp [walkDecls] at hv
  | cons d rest ih =>
    intro prev v hv
    simp only [walkDecls] at hv
    by_cases hok : (checkDecl cfg pkg prev d).2 = true
    · rw [if_pos hok] at hv
      simp only [List.mem_append] at hv
      rcases hv with h | h
      · exact checkDecl_no_pkg cfg pkg prev d v h
      · exact ih (some d) v h
    · rw [if_neg hok] at hv
      exact checkDecl_no_pkg cfg pkg prev d v hv

/-- countV_append: counting distributes over concatenation. -/
theorem countV_append (v : Violation) (a b : List Violation) :
    countV v (a ++ b) = countV v a + countV v b := by
  simp [countV, List.filter_append]

/-- countV_zero: a list avoiding the violation counts it zero times. -/
theorem countV_zero (v : Violation) (l : List Violation)
    (h : ∀ w ∈ l, w ≠ v) : countV v l = 0 := by
  rw [countV, List.length_eq_zero, List.filter_eq_nil_iff]
  intro w hw
  simpa using h w hw

/-- countV_single: the singleton of the violation counts it once. -/
theorem countV_single (v : Violation) : countV v [v] = 1 := by
  simp [countV]

/-- filePackageCheck_not_noDocFile: the per-file package check never emits
the end-of-scan "no file with the same name" violation. -/
theorem filePackageCheck_not_noDocFile (cfg : Config) (pkg : Str) (f : DFile) :
    ∀ v ∈ (filePackageCheck cfg pkg f).1, ∀ q, v.kind ≠ VKind.pkgNoDocFile q := by
  intro v hv q
  simp only [filePackageCheck] at hv
  split at hv
  · simp at hv
  · split at hv
    · cases hd : f.doc with
      | none =>
        rw [hd] at hv
        simp at hv
        subst hv
        simp
      | some d =>
        rw [hd] at hv
        dsimp only at hv
        by_cases hp : hasPrefixGo (trimSpaceGo d) (str "Package " ++ pkg) = true
        · rw [if_pos hp] at hv
          simp at hv
        · rw [if_neg hp] at hv
          simp at hv
          subst hv
          simp
    · simp at hv

/-- checkFile_not_noDocFile: no file-scope analysis step emits the
end-of-scan package violation. -/
theorem checkFile_not_noDocFile (cfg : Config) (pkg : Str) (f : DFile) :
    ∀ v ∈ (checkFile cfg pkg f).1, ∀ q, v.kind ≠ VKind.pkgNoDocFile q := by
  intro v hv q
  simp only [checkFile] at hv
  split at hv
  · simp at hv
  · simp only [List.mem_append] at hv
    rcases hv with h | h
    · exact filePackageCheck_not_noDocFile cfg pkg f v h q
    · have := walkDecls_no_pkg cfg pkg f.decls none v h
      intro hk
      rw [hk] at this
      simp [isPkgKind] at this

/-- runFiles_not_noDocFile: the whole file scan emits the end-of-scan
package violation nowhere. -/
theorem runFiles_not_noDocFile (cfg : Config) (pkg : Str) :
    ∀ files, ∀ v ∈ (runFiles cfg pkg files).1, ∀ q, v.kind ≠ VKind.pkgNoDocFile q := by
  intro files
  induction files with
  | nil => intro v hv; simp [runFiles] at hv
  | cons f rest ih =>
    intro v hv
    simp only [runFiles] at hv
    by_cases hok : (checkFile cfg pkg f).2.2 = true
    · rw [if_pos hok] at hv
      simp only [List.mem_append] at hv
      rcases hv with h | h
      · exact checkFile_not_noDocFile cfg pkg f v h
      · exact ih v h
    · rw [if_neg hok] at hv
      exact checkFile_not_noDocFile cfg pkg f v hv

/-- validatePackageName_not_noDocFile: package-name validation emits only
naming kinds. -/
theorem validatePackageName_not_noDocFile (pkg : Str) :
    ∀ v ∈ validatePackageName pkg, ∀ q, v.kind ≠ VKind.pkgNoDocFile q := by
  intro v hv q
  simp only [validatePackageName, List.mem_append] at hv
  rcases hv with h | h
  · split at h
    · simp at h
      subst h
      simp
    · simp at h
  · split at h
    · simp at h
    · simp at h
      subst h
      simp

/-- checkFile_flag_false: under the claim's hypotheses a file whose base
name is neither the package name nor "doc" never sets the
package-doc-file flag. -/
theorem checkFile_flag_false (cfg : Config) (pkg : Str) (f : DFile)
    (hmain : pkg ≠ str "main") (hvp : cfg.validatePackages = true)
    (h1 : baseName f.path ≠ pkg) (h2 : baseName f.path ≠ str "doc") :
    (checkFile cfg pkg f).2.1 = false := by
  have hc1 : (pkg == str "main" || !cfg.validatePackages) = false := by
    simp [hvp, hmain]
  have hc2 : (baseName f.path == pkg || baseName f.path == str "doc") = false := by
    simp [h1, h2]
  simp only [checkFile]
  split
  · rfl
  · simp [filePackageCheck, hc1, hc2]

/-- checkFile_flag_true: a non-skipped file whose base name is the package
name or "doc" always sets the package-doc-file flag. -/
theorem checkFile_flag_true (cfg : Config) (pkg : Str) (f : DFile)
    (hskip : (isGeneratedComments f.comments || isTestPath f.path) = false)
    (hq : baseName f.path = pkg ∨ baseName f.path = str "doc") :
    (checkFile cfg pkg f).2.1 = true := by
  have hq2 : (baseName f.path == pkg || baseName f.path == str "doc") = true := by
    rcases hq with h | h <;> simp [h]
  have hstep : (checkFile cfg pkg f).2.1 = (filePackageCheck cfg pkg f).2 := by
    simp only [checkFile, hskip]
    rw [if_neg (by simp)]
  rw [hstep]
  by_cases hc1 : (pkg == str "main" || !cfg.validatePackages) = true
  · simp [filePackageCheck, hc1]
  · simp only [filePackageCheck]
    rw [if_neg hc1, if_pos hq2]
    cases f.doc with
    | none => rfl
    | some d =>
      dsimp only
      by_cases hp : hasPrefixGo (trimSpaceGo d) (str "Package " ++ pkg) = true
      · rw [if_pos hp]
      · rw [if_neg hp]

/-- runFiles_flag_false: when no file sets the flag, the scan leaves it
unset. -/
theorem runFiles_flag_false (cfg : Config) (pkg : Str) :
    ∀ files, (∀ f ∈ files, (checkFile cfg pkg f).2.1 = false) →
      (runFiles cfg pkg files).2.1 = false := by
  intro files
  induction files with
  | nil => intro _; simp [runFiles]
  | cons f rest ih =>
    intro h
    simp only [runFiles]
    by_cases hok : (checkFile cfg pkg f).2.2 = true
    · rw [if_pos hok]
      simp only []
      rw [h f (by simp), ih fun g hg => h g (by simp [hg])]
      rfl
    · rw [if_neg hok]
      exact h f (by simp)

/-- runFiles_flag_true: when the scan completes and some file sets the flag,
the scan reports it set. -/
theorem runFiles_flag_true (cfg : Config) (pkg : Str) :
    ∀ files, (runFiles cfg pkg files).2.2 = true →
      (∃ f ∈ files, (checkFile cfg pkg f).2.1 = true) →
      (runFiles cfg pkg files).2.1 = true := by
  intro files
  induction files with
  | nil => intro _ h; simp at h
  | cons f rest ih =>
    intro hok hex
    simp only [runFiles] at hok ⊢
    by_cases hfok : (checkFile cfg pkg f).2.2 = true
    · rw [if_pos hfok] at hok ⊢
      simp only [] at hok
      rcases hex with ⟨g, hg, hflag⟩
      rcases List.mem_cons.mp hg with rfl | hgrest
      · simp [hflag]
      · rw [ih hok ⟨g, hgrest, hflag⟩]
        simp
    · rw [if_neg hfok] at hok
      simp at hok

/-- C5: identification and uniqueness of the package documentation
violation. For a non-main package with package validation on and a scan that
completes: (1) when no file's base name is the package name or "doc", the
run emits the package-level "no file with package comment" violation exactly
once, after all files are scanned; (2) when some non-skipped file qualifies,
that violation is never emitted; (3) a qualifying file is exactly one whose
base name is the package name or "doc", it marks the package as documented,
and it passes cleanly iff its leading comment starts with
`Package <packageName>`. -/
theorem package_doc_file_rule (cfg : Config) (pkg : Str) (files : List DFile)
    (hmain : pkg ≠ str "main") (hvp : cfg.validatePackages = true)
    (hok : (runFiles cfg pkg files).2.2 = true) :
    ((∀ f ∈ files, baseName f.path ≠ pkg ∧ baseName f.path ≠ str "doc") →
        countV ⟨0, VKind.pkgNoDocFile pkg⟩ (doculint cfg pkg files).1 = 1)
    ∧ ((∃ f ∈ files, (isGeneratedComments f.comments || isTestPath f.path) = false
          ∧ (baseName f.path = pkg ∨ baseName f.path = str "doc")) →
        countV ⟨0, VKind.pkgNoDocFile pkg⟩ (doculint cfg pkg files).1 = 0)
    ∧ (∀ f : DFile, (baseName f.path = pkg ∨ baseName f.path = str "doc") →
        (filePackageCheck cfg pkg f).2 = true
        ∧ ((filePackageCheck cfg pkg f).1 = [] ↔
            ∃ d, f.doc = some d
              ∧ hasPrefixGo (trimSpaceGo d) (str "Package " ++ pkg) = true)) := by
  have hd : (doculint cfg pkg files).1
      = validatePackageName pkg ++ (runFiles cfg pkg files).1
        ++ (if (runFiles cfg pkg files).2.1 then []
            else [⟨0, VKind.pkgNoDocFile pkg⟩]) := by
    simp [doculint, hok]
  have hz1 : countV ⟨0, VKind.pkgNoDocFile pkg⟩ (validatePackageName pkg) = 0 := by
    refine countV_zero _ _ ?_
    intro w hw hwe
    exact validatePackageName_not_noDocFile pkg w hw pkg (by rw [hwe])
  have hz2 : countV ⟨0, VKind.pkgNoDocFile pkg⟩ (runFiles cfg pkg files).1 = 0 := by
    refine countV_zero _ _ ?_
    intro w hw hwe
    exact runFiles_not_noDocFile cfg pkg files w hw pkg (by rw [hwe])
  refine ⟨?_, ?_, ?_⟩
  · intro hall
    have hff : (runFiles cfg pkg files).2.1 = false :=
      runFiles_flag_false cfg pkg files fun f hf =>
        checkFile_flag_false cfg pkg f hmain hvp (hall f hf).1 (hall f hf).2
    rw [hd, countV_append, countV_append, hz1, hz2, hff]
    simp [countV_single]
  · rintro ⟨f, hf, hskip, hq⟩
    have hft : (runFiles cfg pkg files).2.1 = true :=
      runFiles_flag_true cfg pkg files hok
        ⟨f, hf, checkFile_flag_true cfg pkg f hskip hq⟩
    rw [hd, countV_append, countV_append, hz1, hz2, hft]
    simp [countV]
  · intro f hq
    have hc1 : (pkg == str "main" || !cfg.validatePackages) = false := by
      simp [hvp, hmain]
    have hq2 : (baseName f.path == pkg || baseName f.path == str "doc") = true := by
      rcases hq with h | h <;> simp [h]
    constructor
    · simp only [filePackageCheck]
      rw [if_neg (by simp [hc1]), if_pos hq2]
      cases f.doc with
      | none => rfl
      | some d =>
        dsimp only
        by_cases hp : hasPrefixGo (trimSpaceGo d) (str "Package " ++ pkg) = true
        · rw [if_pos hp]
        · rw [if_neg hp]
    · simp only [filePackageCheck]
      rw [if_neg (by simp [hc1]), if_pos hq2]
      cases hdoc : f.doc with
      | none => simp
      | some d =>
        dsimp only
        by_cases hp : hasPrefixGo (trimSpaceGo d) (str "Package " ++ pkg) = true
        · rw [if_pos hp]
          simp [hp]
        · rw [if_neg hp]
          simp only [List.cons_ne_self]
          constructor
          · intro h
            exact absurd h (by simp)
          · rintro ⟨d2, hd2, hp2⟩
            rw [Option.some.inj hd2] at hp
            exact absurd hp2 hp

/-- Witness for C5: package foo - a package without a foo or doc file yields
the package-level violation exactly once (for two files, not twice); with a
doc.go file present it is not emitted; and foo.go with the proper leading
comment passes the identification check cleanly. -/
theorem package_doc_file_rule_witness :
    countV ⟨0, VKind.pkgNoDocFile (str "foo")⟩
      (doculint ⟨10, true, true, true, true, true⟩ (str "foo")
        [⟨str "/x/bar.go", none, [], []⟩, ⟨str "/x/baz.go", none, [], []⟩]).1 = 1
    ∧ countV ⟨0, VKind.pkgNoDocFile (str "foo")⟩
      (doculint ⟨10, true, true, true, true, true⟩ (str "foo")
        [⟨str "/x/doc.go", some (str "Package foo does X."), [], []⟩]).1 = 0
    ∧ (filePackageCheck ⟨10, true, true, true, true, true⟩ (str "foo")
        ⟨str "/x/foo.go", some (str "Package foo does X."), [], []⟩).1 = [] := by
  have h1 := package_doc_file_rule ⟨10, true, true, true, true, true⟩ (str "foo")
    [⟨str "/x/bar.go", none, [], []⟩, ⟨str "/x/baz.go", none, [], []⟩]
    (by decide) rfl (by decide)
  have h2 := package_doc_file_rule ⟨10, true, true, true, true, true⟩ (str "foo")
    [⟨str "/x/doc.go", some (str "Package foo does X."), [], []⟩]
    (by decide) rfl (by decide)
  refine ⟨h1.1 ?_, h2.2.1 ?_, ?_⟩
  · intro f hf
    simp only [List.mem_cons, List.not_mem_nil, or_false] at hf
    rcases hf with rfl | rfl <;> exact ⟨by decide, by decide⟩
  · exact ⟨⟨str "/x/doc.go", some (str "Package foo does X."), [], []⟩,
      by simp, by decide, Or.inr (by decide)⟩
  · exact (h2.2.2 ⟨str "/x/foo.go", some (str "Package foo does X."), [], []⟩
      (Or.inl (by decide))).2.mpr ⟨str "Package foo does X.", rfl, by decide⟩

/-- takeUntilSub_isSome_iff: the Contains scan succeeds exactly when the
needle occurs somewhere, i.e. the haystack splits around it. -/
theorem takeUntilSub_isSome_iff (sep : Str) (hsep : sep ≠ []) :
    ∀ l : Str, (takeUntilSub sep l).isSome = true ↔
      ∃ pre post, l = pre ++ sep ++ post := by
  intro l
  induction l with
  | nil =>
    simp only [takeUntilSub, Option.isSome_none]
    constructor
    · intro h
      simp at h
    · rintro ⟨pre, post, h⟩
      rcases List.append_eq_nil.mp h.symm with ⟨h2, -⟩
      rcases List.append_eq_nil.mp h2 with ⟨-, h3⟩
      exact absurd h3 hsep
  | cons c rest ih =>
    simp only [takeUntilSub]
    by_cases hpref : sep.isPrefixOf (c :: rest) = true
    · rw [if_pos hpref]
      simp only [Option.isSome_some, true_iff]
      rcases List.isPrefixOf_iff_prefix.mp hpref with ⟨t, ht⟩
      exact ⟨[], t, by simp [ht.symm]⟩
    · rw [if_neg hpref]
      have hstep : (match takeUntilSub sep rest with
          | none => (none : Option Str)
          | some pre => some (c :: pre)).isSome = (takeUntilSub sep rest).isSome := by
        cases takeUntilSub sep rest <;> rfl
      rw [hstep, ih]
      constructor
      · rintro ⟨pre, post, rfl⟩
        exact ⟨c :: pre, post, rfl⟩
      · rintro ⟨pre, post, h⟩
        cases pre with
        | nil =>
          exfalso
          apply hpref
          rw [ List.isPrefixOf_iff_prefix]
          exact ⟨post, by simpa using h.symm⟩
        | cons c2 pre2 =>
          simp only [List.cons_append, List.cons.injEq] at h
          exact ⟨pre2, post, h.2⟩

/-- C10: a file is generated exactly when some comment, lowercased, contains
the literal "code generated" anywhere - in particular a hand-written comment
merely mentioning the phrase counts - and a generated file is skipped by the
checkers that filter generated files (the why scan and the documentation
analyzer's per-file scan emit nothing for it). -/
theorem generated_detection (f : DFile) (cfg : Config) (pkg : Str) :
    (isGeneratedComments f.comments = true ↔
      ∃ c ∈ f.comments, ∃ pre post,
        toLowerGo c = pre ++ str "code generated" ++ post)
    ∧ (isGeneratedComments f.comments = true → whyFile f = [])
    ∧ (isGeneratedComments f.comments = true → checkFile cfg pkg f = ([], false, true)) := by
  refine ⟨?_, ?_, ?_⟩
  · rw [isGeneratedComments, List.any_eq_true]
    constructor
    · rintro ⟨c, hc, hsub⟩
      rcases (takeUntilSub_isSome_iff (str "code generated") (by decide)
        (toLowerGo c)).mp hsub with ⟨pre, post, h⟩
      exact ⟨c, hc, pre, post, h⟩
    · rintro ⟨c, hc, pre, post, h⟩
      refine ⟨c, hc, ?_⟩
      exact (takeUntilSub_isSome_iff (str "code generated") (by decide)
        (toLowerGo c)).mpr ⟨pre, post, h⟩
  · intro h
    simp [whyFile, h]
  · intro h
    simp [checkFile, h]

/-- Witness for C10: a hand-written file whose only comment is
"// This code generated a report." is classified generated (via the
decomposition around the phrase) and both scans skip it. -/
theorem generated_detection_witness :
    isGeneratedComments [str "// This code generated a report."] = true
    ∧ whyFile ⟨str "/x/a.go", none, [str "// This code generated a report."],
        [Decl.func ⟨str "foo", none, 1, 30⟩]⟩ = []
    ∧ checkFile ⟨10, true, true, true, true, true⟩ (str "p")
        ⟨str "/x/a.go", none, [str "// This code generated a report."],
          [Decl.func ⟨str "foo", none, 1, 30⟩]⟩ = ([], false, true) := by
  have h := generated_detection
    ⟨str "/x/a.go", none, [str "// This code generated a report."],
      [Decl.func ⟨str "foo", none, 1, 30⟩]⟩
    ⟨10, true, true, true, true, true⟩ (str "p")
  have hgen : isGeneratedComments [str "// This code generated a report."] = true :=
    h.1.mpr ⟨str "// This code generated a report.", by simp,
      str "// this ", str " a report.", by decide⟩
  exact ⟨hgen, h.2.1 hgen, h.2.2 hgen⟩

/-- C9 divergence record: a value specification with an empty name list
makes the member loop index `vs.Names[0]` on an empty slice - a panic,
modelled as the completed-flag going false with the member skipped rather
than validated. Non-value specs, by contrast, are skipped and analysis
continues. -/
theorem empty_names_value_spec_faults :
    validateGenDeclConstants false
      ⟨Tok.constTok, true, some (str "Block doc."), 5, [SpecNode.value none [] none 6]⟩
      = ([], false)
    ∧ validateGenDeclVariables
      ⟨Tok.varTok, true, some (str "Block doc."), 5,
        [SpecNode.otherSpec, SpecNode.value none [] none 7]⟩
      = ([], false)
    ∧ (validateGenDeclConstants false
        ⟨Tok.constTok, true, some (str "Block doc."), 5,
          [SpecNode.otherSpec, SpecNode.value none [str "A"] none 6]⟩).2 = true := by
  refine ⟨by decide, by decide, by decide⟩

end Lintroller
